import Mathlib

/-!
Verification of the tinker-ui repository against its specification.

The repository under verification is the frontend of a model-training
dashboard.  The frontend components (chat tab, models tab, deployments page,
training wizard) are embedded directly from the TypeScript source.  The run
orchestration core described by the specification (job runner, run state
machine, checkpoint manager, metrics parser) is not part of the source tree;
definitions for it are modelled from the specification text and are marked as
such in their doc comments.
-/

namespace TinkerUI

/-! ## Frontend data model (from `src/frontend`) -/

/-- A training run as the frontend sees it (`Run` from `@/lib/api`):
identity, status string and recipe type are the fields the chat tab uses. -/
structure Run where
  id : Nat
  status : String
  recipe_type : String
deriving DecidableEq, Repr

/-- One `{ value, label }` option of the chat model selector. -/
structure ChatOption where
  value : String
  label : String
deriving DecidableEq, Repr

/-- Rendering of one completed run as a chat option, from
`chat-tab.tsx` lines 24-27: value `run::<id>`, label `Run #<id> - <recipe_type>`. -/
def renderRunOption (r : Run) : ChatOption :=
  { value := "run::" ++ toString r.id
  , label := "Run #" ++ toString r.id ++ " - " ++ r.recipe_type }

/-- `trainedRunOptions` from `chat-tab.tsx` lines 22-27:
`runs.filter(run => run.status === 'completed').map(run => ({...}))`. -/
def trainedRunOptions (runs : List Run) : List ChatOption :=
  (runs.filter (fun r => r.status = "completed")).map renderRunOption

/-- `getProgressValue` from the deployments page
(`simple_tests.test.ts` blob, lines 219-224): maps a deployment status
string to a progress percentage; the `deployed_at` parameter is accepted
but never read. -/
def getProgressValue (status : String) (deployed_at : Option String) : Nat :=
  if status = "completed" then 100
  else if status = "uploading" then 75
  else if status = "pending" then 25
  else 0

/-- Does the character list `hay` begin with the character list `needle`? -/
def leadsWith : List Char → List Char → Bool
  | _, [] => true
  | [], _ :: _ => false
  | a :: as, b :: bs => (a = b) && leadsWith as bs

/-- Does `hay` contain `needle` as a contiguous subsequence?  This is the
semantics of JavaScript `String.prototype.includes`. -/
def containsSeq : List Char → List Char → Bool
  | [], needle => needle.isEmpty
  | hay@(_ :: t), needle => leadsWith hay needle || containsSeq t needle

/-- JavaScript `a.includes(b)`: `b` occurs contiguously inside `a`. -/
def jsIncludes (hay needle : String) : Bool :=
  containsSeq hay.data needle.data

/-- JavaScript `String.prototype.toLowerCase`, modelled characterwise. -/
def jsToLower (s : String) : String :=
  ⟨s.data.map Char.toLower⟩

/-- A supported model entry: the `model_name` field is what the search
filter of `models-tab.tsx` inspects. -/
structure SupportedModel where
  model_name : String
deriving DecidableEq, Repr

/-- A registered model entry: the search filter inspects its `name`. -/
structure RegisteredModel where
  name : String
deriving DecidableEq, Repr

/-- Case-insensitive containment of `term` in `name`, the search predicate
of the model filters (spec side of the characterization). -/
def containsCI (name term : String) : Bool :=
  jsIncludes (jsToLower name) (jsToLower term)

/-- `filteredSupported` from `models-tab.tsx` lines 74-79 (and the identical
`model-catalog.tsx` lines 41-44): an empty search returns the input list,
otherwise filter by lowercase substring containment on `model_name`. -/
def filteredSupported (search : String) (models : List SupportedModel) :
    List SupportedModel :=
  if search = "" then models
  else models.filter (fun m => jsIncludes (jsToLower m.model_name) (jsToLower search))

/-- `filteredRegistered` from `models-tab.tsx` lines 81-84 (and
`model-catalog.tsx` lines 46-49): same filter, on the `name` field. -/
def filteredRegistered (search : String) (models : List RegisteredModel) :
    List RegisteredModel :=
  if search = "" then models
  else models.filter (fun m => jsIncludes (jsToLower m.name) (jsToLower search))

/-! ## Helper lemmas -/

/-- Every character list begins with the empty list. -/
theorem leadsWith_nil (l : List Char) : leadsWith l [] = true := by
  cases l <;> rfl

/-- Every character list contains the empty list. -/
theorem containsSeq_nil (l : List Char) : containsSeq l [] = true := by
  cases l <;> simp [containsSeq, leadsWith_nil, List.isEmpty]

/-- `jsIncludes` with an empty needle always holds. -/
theorem jsIncludes_empty (s : String) : jsIncludes s "" = true :=
  containsSeq_nil s.data

/-- Lowercasing the empty string yields the empty string. -/
theorem jsToLower_empty : jsToLower "" = "" := rfl

/-- C8: the chat tab's trained-model options are exactly the completed runs,
each rendered with value `run::` followed by the id and label `Run #`, the id,
a dash and the recipe type; runs in any other status never contribute an
option. -/
theorem chatTab_options_are_exactly_completed_runs (runs : List Run)
    (opt : ChatOption) :
    opt ∈ trainedRunOptions runs ↔
      ∃ r, r ∈ runs ∧ r.status = "completed" ∧
        opt.value = "run::" ++ toString r.id ∧
        opt.label = "Run #" ++ toString r.id ++ " - " ++ r.recipe_type := by
  constructor
  · intro h
    rcases List.mem_map.mp h with ⟨r, hr, hrend⟩
    rcases List.mem_filter.mp hr with ⟨hmem, hst⟩
    subst hrend
    exact ⟨r, hmem, by simpa using hst, rfl, rfl⟩
  · rintro ⟨r, hmem, hst, hv, hl⟩
    refine List.mem_map.mpr ⟨r, List.mem_filter.mpr ⟨hmem, by simpa using hst⟩, ?_⟩
    cases opt
    simp only [renderRunOption, ChatOption.mk.injEq]
    exact ⟨hv.symm, hl.symm⟩

/-- C9: the deployment progress percentage depends on the status string
alone: 100 for completed, 75 for uploading, 25 for pending and 0 for every
other status (failed included); the `deployed_at` argument never changes the
result. -/
theorem deployment_progress_pure_in_status (s : String) (d d' : Option String) :
    getProgressValue s d = getProgressValue s d'
    ∧ getProgressValue "completed" d = 100
    ∧ getProgressValue "uploading" d = 75
    ∧ getProgressValue "pending" d = 25
    ∧ getProgressValue "failed" d = 0
    ∧ (s ≠ "completed" → s ≠ "uploading" → s ≠ "pending" →
        getProgressValue s d = 0) := by
  refine ⟨rfl, rfl, rfl, rfl, rfl, ?_⟩
  intro h1 h2 h3
  simp [getProgressValue, h1, h2, h3]

/-- C10: the model search filters return exactly the models whose name
contains the search term case-insensitively, as an order-preserving
sublist of the input, and an empty search term returns the input list
unchanged (for both the supported-model and the registered-model lists). -/
theorem model_filter_exact (search : String) (supported : List SupportedModel)
    (registered : List RegisteredModel) :
    filteredSupported search supported
      = supported.filter (fun m => containsCI m.model_name search)
    ∧ filteredRegistered search registered
      = registered.filter (fun m => containsCI m.name search)
    ∧ filteredSupported "" supported = supported
    ∧ filteredRegistered "" registered = registered
    ∧ List.Sublist (filteredSupported search supported) supported
    ∧ List.Sublist (filteredRegistered search registered) registered := by
  have hsup : filteredSupported search supported
      = supported.filter (fun m => containsCI m.model_name search) := by
    by_cases h : search = ""
    · subst h
      simp only [filteredSupported, if_pos rfl]
      symm
      refine List.filter_eq_self.mpr fun m _ => ?_
      simp [containsCI, jsToLower_empty, jsIncludes_empty]
    · simp only [filteredSupported, if_neg h]
      rfl
  have hreg : filteredRegistered search registered
      = registered.filter (fun m => containsCI m.name search) := by
    by_cases h : search = ""
    · subst h
      simp only [filteredRegistered, if_pos rfl]
      symm
      refine List.filter_eq_self.mpr fun m _ => ?_
      simp [containsCI, jsToLower_empty, jsIncludes_empty]
    · simp only [filteredRegistered, if_neg h]
      rfl
  refine ⟨hsup, hreg, by simp [filteredSupported], by simp [filteredRegistered], ?_, ?_⟩
  · rw [hsup]; exact List.filter_sublist _
  · rw [hreg]; exact List.filter_sublist _

/-! ## Run orchestration core, modelled from the specification

The orchestration engine (run state machine, job runner, checkpoint
manager, metrics parser) lives in the backend, which is not part of this
source tree; the definitions below are modelled from the specification
text, section by section. -/

/-- Modelled from the spec: run statuses, section 4.1.  Missing from src:
the backend run state machine. -/
inductive RunStatus
  | pending
  | running
  | completed
  | failed
  | cancelled
deriving DecidableEq, Repr

/-- Modelled from the spec: terminal statuses are completed, failed and
cancelled. -/
def RunStatus.isTerminal : RunStatus → Bool
  | .completed => true
  | .failed => true
  | .cancelled => true
  | _ => false

/-- Events that can move a run across states, one per transition arrow of
spec section 4.1. -/
inductive RunEvent
  | startExec
  | execSucceeded
  | execFailedFatal
  | retryRetryable
  | cancelObserved
deriving DecidableEq, Repr

/-- Modelled from the spec: the transition table of section 4.1.  `none`
means the transition is not permitted and the status stays put.  Missing
from src: the backend run state machine. -/
def transition : RunStatus → RunEvent → Option RunStatus
  | .pending, .startExec => some .running
  | .running, .execSucceeded => some .completed
  | .running, .execFailedFatal => some .failed
  | .running, .retryRetryable => some .running
  | .running, .cancelObserved => some .cancelled
  | _, _ => none

/-- Applying an event: a permitted transition moves the status, anything
else leaves it unchanged. -/
def applyEvent (st : RunStatus) (e : RunEvent) : RunStatus :=
  (transition st e).getD st

/-- A checkpoint record, spec section 3: owning run, step number, storage
reference, metric snapshot and the final-artifact flag. -/
structure Checkpoint where
  runId : Nat
  step : Nat
  storageRef : String
  metrics : List (String × ℚ)
  isFinal : Bool
deriving DecidableEq, Repr

/-- The job runner's view of one run: authoritative status, the run-scoped
exclusive lock, the registered checkpoints and the progress fraction. -/
structure JRState where
  status : RunStatus
  locked : Bool
  checkpoints : List Checkpoint
  progress : ℚ
deriving DecidableEq, Repr

/-- Outcome of one `start` call, spec section 4.2. -/
inductive StartResult
  | ack
  | alreadyRunning
deriving DecidableEq, Repr

/-- Modelled from the spec: `start(run)` of section 4.2 acquires the
exclusive run-scoped lock before any state transition; a call that finds
the lock held observes `AlreadyRunning` and performs no side effect.
Missing from src: the backend job runner. -/
def start (s : JRState) : JRState × StartResult :=
  if s.locked then (s, .alreadyRunning)
  else if s.status = .pending then
    ({ s with status := .running, locked := true }, .ack)
  else (s, .alreadyRunning)

/-- A burst of duplicate `start` calls for the same run: each call's lock
acquisition is atomic, so any concurrent interleaving of the calls acts on
the state in some sequential order, which this iteration captures. -/
def startAll (s : JRState) : Nat → JRState × List StartResult
  | 0 => (s, [])
  | n + 1 =>
    let p := start s
    let q := startAll p.1 n
    (q.1, p.2 :: q.2)

/-- A `start` call that finds the lock held returns `AlreadyRunning` and
leaves the whole state untouched. -/
theorem start_locked (s : JRState) (h : s.locked = true) :
    start s = (s, .alreadyRunning) := by
  simp [start, h]

/-- Once the lock is held, every further `start` call in a burst fails and
the state never changes. -/
theorem startAll_locked (n : Nat) (s : JRState) (h : s.locked = true) :
    startAll s n = (s, List.replicate n .alreadyRunning) := by
  induction n generalizing s with
  | zero => rfl
  | succ n ih =>
    simp [startAll, start_locked s h, ih s h, List.replicate]

/-- C1: in any burst of duplicate `start` calls on a pending, unlocked run,
exactly one call is acknowledged and transitions the run to running; every
other call observes `AlreadyRunning`, and a call that finds the lock held
returns the state unchanged (no status transition, no checkpoint creation,
no progress mutation); the burst as a whole never touches checkpoints or
progress. -/
theorem start_concurrent_duplicates_safe (s : JRState) (n : Nat)
    (hlock : s.locked = false) (hpend : s.status = .pending) (hn : 1 ≤ n) :
    (startAll s n).2.count .ack = 1
    ∧ (startAll s n).2.count .alreadyRunning = n - 1
    ∧ (startAll s n).1.status = .running
    ∧ (startAll s n).1.checkpoints = s.checkpoints
    ∧ (startAll s n).1.progress = s.progress
    ∧ ∀ t : JRState, t.locked = true → start t = (t, .alreadyRunning) := by
  obtain ⟨m, rfl⟩ : ∃ m, n = m + 1 := ⟨n - 1, (Nat.succ_pred_eq_of_pos hn).symm⟩
  have hstart : start s = ({ s with status := .running, locked := true }, .ack) := by
    simp [start, hlock, hpend]
  have hrest := startAll_locked m { s with status := .running, locked := true } rfl
  have key : startAll s (m + 1)
      = ({ s with status := .running, locked := true },
          .ack :: List.replicate m .alreadyRunning) := by
    simp [startAll, hstart, hrest]
  rw [key]
  refine ⟨?_, ?_, rfl, rfl, rfl, fun t ht => start_locked t ht⟩
  · simp [List.count_cons, List.count_replicate]
  · simp [List.count_cons, List.count_replicate]

/-- Witness for C1 at a concrete pending state and a burst of three calls. -/
theorem start_concurrent_duplicates_safe_witness :
    (startAll ⟨.pending, false, [], 0⟩ 3).2.count .ack = 1 :=
  (start_concurrent_duplicates_safe ⟨.pending, false, [], 0⟩ 3 rfl rfl
    (by decide)).1

/-! ## Recipe table (from `dataset-manager.tsx`) and submission -/

/-- One entry of the training wizard's recipe table, from
`dataset-manager.tsx` lines 678-803; `comingSoon` is absent (falsy) on the
implemented recipes, and `defaultConfig` is absent on the advanced and
coming-soon ones. -/
structure RecipeInfo where
  value : String
  label : String
  shortLabel : String
  description : String
  popular : Bool
  supported : Bool
  comingSoon : Bool := false
  defaultConfig : List (String × ℚ) := []
deriving DecidableEq, Repr

/-- The `ALL_RECIPES` table of `dataset-manager.tsx` lines 678-803. -/
def ALL_RECIPES : List RecipeInfo :=
  [ { value := "SFT", label := "Supervised Fine-Tuning", shortLabel := "SFT"
    , description := "Train on instruction-response pairs"
    , popular := true, supported := true
    , defaultConfig :=
        [("learning_rate", 5e-5), ("batch_size", 4), ("rank", 64), ("epochs", 3)] }
  , { value := "CHAT_SL", label := "Chat Training", shortLabel := "Chat"
    , description := "Conversational AI training"
    , popular := true, supported := true
    , defaultConfig := [("learning_rate", 5e-4), ("batch_size", 64), ("rank", 64)] }
  , { value := "MATH_RL", label := "Math Reasoning RL", shortLabel := "Math RL"
    , description := "Mathematical reasoning with RL"
    , popular := true, supported := true
    , defaultConfig := [("learning_rate", 1e-5), ("rank", 32)] }
  , { value := "DPO", label := "Direct Preference Optimization", shortLabel := "DPO"
    , description := "Learn from preference pairs"
    , popular := false, supported := true }
  , { value := "RL", label := "Reinforcement Learning", shortLabel := "RL"
    , description := "General RL training"
    , popular := false, supported := true }
  , { value := "DISTILLATION", label := "Model Distillation", shortLabel := "Distill"
    , description := "Compress model knowledge"
    , popular := false, supported := true }
  , { value := "PPO", label := "Proximal Policy Optimization", shortLabel := "PPO"
    , description := "Advanced RL with PPO"
    , popular := false, supported := false, comingSoon := true }
  , { value := "GRPO", label := "Group Relative Policy Optimization"
    , shortLabel := "GRPO", description := "Group-based RL optimization"
    , popular := false, supported := false, comingSoon := true }
  , { value := "PROMPT_DISTILLATION", label := "Prompt Distillation"
    , shortLabel := "P-Distill", description := "Distill prompt strategies"
    , popular := false, supported := false, comingSoon := true }
  , { value := "TOOL_USE", label := "Tool Use Training", shortLabel := "Tool Use"
    , description := "Train to use external tools"
    , popular := false, supported := false, comingSoon := true }
  , { value := "MULTIPLAYER_RL", label := "Multi-Agent RL", shortLabel := "Multi-RL"
    , description := "Multiple agents training"
    , popular := false, supported := false, comingSoon := true } ]

/-- The wizard's disabling condition for a recipe card,
`dataset-manager.tsx` line 996: `recipe.comingSoon || !recipe.supported`. -/
def recipeDisabled (r : RecipeInfo) : Bool :=
  r.comingSoon || !r.supported

/-- The recipe card's click handler, `dataset-manager.tsx` line 1001:
`() => !isDisabled && setSelectedRecipe(recipe.value)`, with the button also
carrying `disabled=isDisabled`; a disabled recipe can never become the
selection. -/
def clickRecipe (selected : Option String) (r : RecipeInfo) : Option String :=
  if recipeDisabled r then selected else some r.value

/-- Modelled from the spec: the error taxonomy of section 7, with its
retryability classification.  Missing from src: the backend orchestration
service. -/
inductive OrchError
  | validationError
  | alreadyRunningError
  | transientProviderError
  | stalledExecution
  | artifactError
  | notFound
deriving DecidableEq, Repr

/-- Modelled from the spec: which errors the retry policy may retry
(section 7): validation, duplicate-start and not-found errors never are. -/
def OrchError.retryable : OrchError → Bool
  | .transientProviderError => true
  | .stalledExecution => true
  | .artifactError => true
  | _ => false

/-- A persisted run record: identity, recipe kind, status. -/
structure RunRecord where
  id : Nat
  recipeKind : String
  status : RunStatus
deriving DecidableEq, Repr

/-- The run store: the next fresh identity and the persisted records. -/
structure RunStore where
  nextId : Nat
  runs : List RunRecord
deriving DecidableEq, Repr

/-- Is `kind` the value of an implemented (supported and not coming-soon)
entry of the recipe table? -/
def supportedKind (kind : String) : Bool :=
  ALL_RECIPES.any (fun r => r.value = kind && r.supported && !r.comingSoon)

/-- Modelled from the spec: `submitRun` (section 6) creates a logically new
run in `pending` with a fresh identity; an unsupported or coming-soon recipe
kind is rejected at submission time with a fatal `ValidationError` and no
run is created (section 4.3).  Missing from src: the backend orchestration
service. -/
def submitRun (store : RunStore) (kind : String) :
    RunStore × Except OrchError RunRecord :=
  if supportedKind kind then
    let newRun : RunRecord := ⟨store.nextId, kind, .pending⟩
    ({ nextId := store.nextId + 1, runs := store.runs ++ [newRun] }, .ok newRun)
  else (store, .error .validationError)

/-- C3: the recipes the wizard disables are exactly PPO, GRPO,
PROMPT_DISTILLATION, TOOL_USE and MULTIPLAYER_RL; a disabled recipe can
never be selected in the wizard, and a submission carrying such a kind is
rejected at submission time with a fatal, non-retryable validation error
and creates no run. -/
theorem coming_soon_rejected_at_submission :
    (ALL_RECIPES.filter recipeDisabled).map RecipeInfo.value
      = ["PPO", "GRPO", "PROMPT_DISTILLATION", "TOOL_USE", "MULTIPLAYER_RL"]
    ∧ (∀ r ∈ ALL_RECIPES, recipeDisabled r = true →
        ∀ sel, clickRecipe sel r = sel)
    ∧ (∀ store kind, supportedKind kind = false →
        submitRun store kind = (store, .error .validationError)
        ∧ OrchError.retryable .validationError = false)
    ∧ (∀ r ∈ ALL_RECIPES, recipeDisabled r = true →
        supportedKind r.value = false) := by
  refine ⟨by decide, ?_, ?_, by decide⟩
  · intro r _ hd sel
    simp [clickRecipe, hd]
  · intro store kind h
    exact ⟨by simp [submitRun, h], rfl⟩

/-- Witness for C3: submitting the coming-soon kind PPO on a concrete
store is rejected with a validation error and the store is unchanged. -/
theorem coming_soon_rejected_witness :
    submitRun ⟨0, []⟩ "PPO" = (⟨0, []⟩, .error .validationError) :=
  (coming_soon_rejected_at_submission.2.2.1 ⟨0, []⟩ "PPO" (by decide)).1

/-- C6: a run in a terminal status is never moved by any event (the
transition table permits nothing out of a terminal state), and submitting
a run again creates a logically new record with a fresh identity, in
`pending`, appending to the store without touching the existing records. -/
theorem terminal_states_are_final :
    (∀ (st : RunStatus) (e : RunEvent), st.isTerminal = true →
        transition st e = none ∧ applyEvent st e = st)
    ∧ (∀ store kind store' run,
        (∀ r ∈ store.runs, r.id < store.nextId) →
        submitRun store kind = (store', Except.ok run) →
        store'.runs = store.runs ++ [run]
        ∧ run.id ∉ store.runs.map RunRecord.id
        ∧ run.status = .pending) := by
  constructor
  · intro st e ht
    cases st <;> cases e <;> simp_all [RunStatus.isTerminal, transition, applyEvent]
  · intro store kind store' run hfresh hsub
    unfold submitRun at hsub
    by_cases h : supportedKind kind
    · rw [if_pos h] at hsub
      injection hsub with h1 h2
      injection h2 with h2
      subst h1
      subst h2
      refine ⟨rfl, ?_, rfl⟩
      intro hmem
      rcases List.mem_map.mp hmem with ⟨r, hr, hid⟩
      exact absurd hid (Nat.ne_of_lt (hfresh r hr))
    · rw [if_neg h] at hsub
      injection hsub with h1 h2
      exact absurd h2 (by simp)

/-- Witness for C6: resubmitting on a store holding one completed run
creates a new pending record with a fresh identity. -/
theorem terminal_states_are_final_witness :
    (⟨2, [⟨0, "SFT", .completed⟩, ⟨1, "SFT", .pending⟩]⟩ : RunStore).runs
        = [(⟨0, "SFT", .completed⟩ : RunRecord)] ++ [⟨1, "SFT", .pending⟩] :=
  (terminal_states_are_final.2 ⟨1, [⟨0, "SFT", RunStatus.completed⟩]⟩
    "SFT" ⟨2, [⟨0, "SFT", RunStatus.completed⟩, ⟨1, "SFT", RunStatus.pending⟩]⟩
    ⟨1, "SFT", RunStatus.pending⟩ (by decide) rfl).1

/-! ## Checkpoint manager, modelled from spec section 4.4 -/

/-- The error `register` raises on a non-monotonic step number. -/
inductive RegisterError
  | invalidStepOrder
deriving DecidableEq, Repr

/-- Modelled from the spec: `register(run, step, storageRef, metrics,
isFinal)` appends a new checkpoint record when `step` is strictly greater
than every step already registered for the run, and otherwise fails with
`InvalidStepOrder` leaving the run's checkpoints unchanged.  Missing from
src: the backend checkpoint manager. -/
def register (cps : List Checkpoint) (runId step : Nat) (ref : String)
    (metrics : List (String × ℚ)) (final : Bool) :
    List Checkpoint × Except RegisterError Checkpoint :=
  if cps.all (fun c => c.step < step) then
    let c : Checkpoint := ⟨runId, step, ref, metrics, final⟩
    (cps ++ [c], .ok c)
  else (cps, .error .invalidStepOrder)

/-- The step numbers of a run's checkpoints, in registration order. -/
def stepsOf (cps : List Checkpoint) : List Nat :=
  cps.map Checkpoint.step

/-- One registration request, as the job runner would issue it. -/
structure RegisterReq where
  runId : Nat
  step : Nat
  storageRef : String
  metrics : List (String × ℚ)
  isFinal : Bool
deriving DecidableEq, Repr

/-- The checkpoint list after one registration request (a rejected request
leaves it as it was). -/
def applyReq (cps : List Checkpoint) (q : RegisterReq) : List Checkpoint :=
  (register cps q.runId q.step q.storageRef q.metrics q.isFinal).1

/-- One registration keeps the step sequence strictly increasing. -/
theorem applyReq_chain (cps : List Checkpoint) (q : RegisterReq)
    (h : List.Chain' (· < ·) (stepsOf cps)) :
    List.Chain' (· < ·) (stepsOf (applyReq cps q)) := by
  unfold applyReq register
  by_cases hall : cps.all (fun c => c.step < q.step)
  · rw [if_pos hall]
    simp only [stepsOf, List.map_append, List.map_cons, List.map_nil]
    rw [List.chain'_append]
    refine ⟨h, List.chain'_singleton _, ?_⟩
    intro x hx y hy
    simp only [List.head?_cons, Option.mem_def, Option.some.injEq] at hy
    subst hy
    have hx' : x ∈ cps.map Checkpoint.step := by
      rcases List.mem_getLast?_eq_getLast hx with ⟨hne, rfl⟩
      exact List.getLast_mem hne
    rcases List.mem_map.mp hx' with ⟨c, hc, rfl⟩
    exact of_decide_eq_true (List.all_eq_true.mp hall c hc)
  · rw [if_neg hall]
    exact h

/-- C2: registering a step not strictly above the current maximum fails
with `InvalidStepOrder` and leaves the run's checkpoints unchanged, and the
step numbers of the checkpoints produced by any sequence of registration
requests are strictly increasing in registration order. -/
theorem register_enforces_strict_step_order
    (cps : List Checkpoint) (runId step : Nat) (ref : String)
    (metrics : List (String × ℚ)) (final : Bool) (reqs : List RegisterReq) :
    ((∃ c ∈ cps, step ≤ c.step) →
        register cps runId step ref metrics final
          = (cps, .error .invalidStepOrder))
    ∧ (List.Chain' (· < ·) (stepsOf cps) →
        List.Chain' (· < ·) (stepsOf (reqs.foldl applyReq cps)))
    ∧ List.Chain' (· < ·) (stepsOf (reqs.foldl applyReq [])) := by
  have hfold : ∀ (l : List RegisterReq) (start : List Checkpoint),
      List.Chain' (· < ·) (stepsOf start) →
      List.Chain' (· < ·) (stepsOf (l.foldl applyReq start)) := by
    intro l
    induction l with
    | nil => intro start h; exact h
    | cons q l ih =>
      intro start h
      exact ih _ (applyReq_chain start q h)
  refine ⟨?_, hfold reqs cps, hfold reqs [] (by simp [stepsOf])⟩
  intro ⟨c, hc, hstep⟩
  unfold register
  rw [if_neg]
  intro hall
  have := of_decide_eq_true (List.all_eq_true.mp hall c hc)
  omega

/-- Witness for C2: with a checkpoint at step 5 registered, registering
step 5 again is rejected with `InvalidStepOrder`. -/
theorem register_enforces_strict_step_order_witness :
    register [⟨1, 5, "ref0", [], false⟩] 1 5 "ref1" [] false
      = ([⟨1, 5, "ref0", [], false⟩], .error .invalidStepOrder) :=
  (register_enforces_strict_step_order [⟨1, 5, "ref0", [], false⟩] 1 5 "ref1"
    [] false []).1 ⟨⟨1, 5, "ref0", [], false⟩, by simp, by decide⟩

/-! ## Metrics parser, modelled from spec section 4.5 -/

/-- A structured metric sample (step, loss, learning rate, progress
fraction, timestamp); a field the parser could not recover is `none`. -/
structure MetricSample where
  step : Option Nat
  loss : Option ℚ
  learningRate : Option ℚ
  progress : Option ℚ
  timestamp : Option Nat
deriving DecidableEq, Repr

/-- A numeric field of a raw provider line: either a parsed number or
malformed text. -/
inductive RawField
  | malformed (raw : String)
  | num (q : ℚ)
deriving DecidableEq, Repr

/-- The numeric value of a raw field, if it parsed. -/
def RawField.toNum : RawField → Option ℚ
  | .malformed _ => none
  | .num q => some q

/-- A raw line of provider output: either text the parser does not
recognize at all, or a recognized progress event with per-field raw
content. -/
inductive RawLine
  | unrecognized (text : String)
  | progressEvent (step : Option Nat) (loss lr progressFrac : RawField)
      (timestamp : Option Nat)
deriving DecidableEq, Repr

/-- Modelled from the spec: `parse(rawLine) -> MetricSample | none`
(section 4.5) skips unrecognized lines, keeps a recognized line while
dropping each malformed numeric field, and treats a progress fraction
outside the interval from 0 to 1 as a parse failure for that field only.
Missing from src: the backend metrics parser. -/
def parse (line : RawLine) : Option MetricSample :=
  match line with
  | .unrecognized _ => none
  | .progressEvent step loss lr pf ts =>
    some
      { step := step
      , loss := loss.toNum
      , learningRate := lr.toNum
      , progress :=
          match pf.toNum with
          | none => none
          | some p => if 0 ≤ p ∧ p ≤ 1 then some p else none
      , timestamp := ts }

/-- C4: the parser never turns a line into a failure: an unrecognized line
yields `none`, a recognized line with an out-of-range or malformed progress
field yields a sample with only that field omitted and all other fields
kept, an in-range progress field is kept, and every progress value a parsed
sample carries lies between 0 and 1. -/
theorem parse_tolerates_bad_lines :
    (∀ t, parse (.unrecognized t) = none)
    ∧ (∀ step loss lr (p : ℚ) ts, p < 0 ∨ 1 < p →
        parse (.progressEvent step loss lr (.num p) ts)
          = some ⟨step, loss.toNum, lr.toNum, none, ts⟩)
    ∧ (∀ step loss lr raw ts,
        parse (.progressEvent step loss lr (.malformed raw) ts)
          = some ⟨step, loss.toNum, lr.toNum, none, ts⟩)
    ∧ (∀ step loss lr (p : ℚ) ts, 0 ≤ p → p ≤ 1 →
        parse (.progressEvent step loss lr (.num p) ts)
          = some ⟨step, loss.toNum, lr.toNum, some p, ts⟩)
    ∧ (∀ line sample (p : ℚ), parse line = some sample →
        sample.progress = some p → 0 ≤ p ∧ p ≤ 1) := by
  refine ⟨fun t => rfl, ?_, fun step loss lr raw ts => rfl, ?_, ?_⟩
  · intro step loss lr p ts hp
    have : ¬ (0 ≤ p ∧ p ≤ 1) := by
      rcases hp with hp | hp
      · exact fun h => absurd h.1 (not_le.mpr hp)
      · exact fun h => absurd h.2 (not_le.mpr hp)
    simp [parse, RawField.toNum, this]
  · intro step loss lr p ts h0 h1
    simp [parse, RawField.toNum, h0, h1]
  · intro line sample p hline hprog
    cases line with
    | unrecognized t => simp [parse] at hline
    | progressEvent step loss lr pf ts =>
      simp only [parse, Option.some.injEq] at hline
      subst hline
      cases pf with
      | malformed raw => simp [RawField.toNum] at hprog
      | num q =>
        by_cases hin : 0 ≤ q ∧ q ≤ 1
        · simp only [RawField.toNum, if_pos hin, Option.some.injEq] at hprog
          exact hprog ▸ hin
        · simp [RawField.toNum, if_neg hin] at hprog

/-- Witness for C4: a line with progress 1.5 parses to a sample keeping
step 10, loss and timestamp but omitting the progress field. -/
theorem parse_tolerates_bad_lines_witness :
    parse (.progressEvent (some 10) (.num (1/2)) (.malformed "nan")
        (.num (3/2)) (some 99))
      = some ⟨some 10, some (1/2), none, none, some 99⟩ :=
  parse_tolerates_bad_lines.2.1 (some 10) (.num (1/2)) (.malformed "nan")
    (3/2) (some 99) (Or.inr (by norm_num))

/-! ## Run progress, modelled from spec section 3 -/

/-- The derived progress state of a run: current step and progress
fraction, updated only by the job runner from parsed metrics. -/
structure RunProgress where
  currentStep : Nat
  progress : ℚ
deriving DecidableEq, Repr

/-- Modelled from the spec: the job runner applies a parsed metric sample
to the run, never letting the progress fraction decrease within an attempt
(section 3, Run invariants).  Missing from src: the backend job runner. -/
def applySample (r : RunProgress) (s : MetricSample) : RunProgress :=
  { currentStep :=
      match s.step with
      | none => r.currentStep
      | some n => n
  , progress :=
      match s.progress with
      | none => r.progress
      | some p => max r.progress p }

/-- Where an execution attempt starts from: nothing, or a checkpoint. -/
inductive ResumeSource
  | fromScratch
  | fromCheckpoint (c : Checkpoint)
deriving DecidableEq, Repr

/-- Modelled from the spec: starting an attempt resets step and progress
on an explicit resume-from-scratch and keeps the accumulated progress on a
resume-from-checkpoint (section 3, Run invariants).  Missing from src: the
backend job runner. -/
def startAttempt (src : ResumeSource) (r : RunProgress) : RunProgress :=
  match src with
  | .fromScratch => { currentStep := 0, progress := 0 }
  | .fromCheckpoint c => { currentStep := c.step, progress := r.progress }

/-- The scan of states an attempt passes through starts at the initial
state. -/
theorem scanl_applySample_head (r : RunProgress) (ss : List MetricSample) :
    ∃ t, List.scanl applySample r ss = r :: t := by
  cases ss <;> exact ⟨_, rfl⟩

/-- C7: applying one metric sample never decreases the progress fraction,
the progress values along any sequence of applied samples within one
attempt are non-decreasing, and starting an attempt resets progress to
zero on a resume-from-scratch while a resume-from-checkpoint keeps the
run's progress exactly. -/
theorem progress_monotone_within_attempt :
    (∀ r s, r.progress ≤ (applySample r s).progress)
    ∧ (∀ r ss, List.Chain' (· ≤ ·)
        ((List.scanl applySample r ss).map RunProgress.progress))
    ∧ (∀ r, (startAttempt .fromScratch r).progress = 0)
    ∧ (∀ c r, (startAttempt (.fromCheckpoint c) r).progress = r.progress) := by
  have hone : ∀ r s, r.progress ≤ (applySample r s).progress := by
    intro r s
    unfold applySample
    cases s.progress with
    | none => exact le_refl _
    | some p => exact le_max_left _ _
  refine ⟨hone, ?_, fun r => rfl, fun c r => rfl⟩
  intro r ss
  induction ss generalizing r with
  | nil => simp
  | cons s ss ih =>
    rw [List.scanl_cons, List.singleton_append, List.map_cons]
    rw [List.chain'_cons']
    refine ⟨?_, ih (applySample r s)⟩
    intro b hb
    obtain ⟨t, ht⟩ := scanl_applySample_head (applySample r s) ss
    rw [ht, List.map_cons, List.head?_cons] at hb
    simp only [Option.mem_def, Option.some.injEq] at hb
    subst hb
    exact hone r s

/-! ## Best-checkpoint selection, modelled from spec section 4.4 -/

/-- The caller-supplied comparison direction of `best`. -/
inductive Direction
  | minimize
  | maximize
deriving DecidableEq, Repr

/-- Is `x` strictly better than `y` for direction `d`? -/
def better (d : Direction) (x y : ℚ) : Bool :=
  match d with
  | .minimize => decide (x < y)
  | .maximize => decide (y < x)

/-- The value a checkpoint's metric snapshot records under `key`. -/
def getMetric (c : Checkpoint) (key : String) : Option ℚ :=
  c.metrics.lookup key

/-- Modelled from the spec: `best(run, metricKey)` with a caller-supplied
comparison direction selects, among the run's checkpoints carrying the
metric key, one whose value no other checkpoint strictly beats; it
hardcodes no metric name.  Missing from src: the backend checkpoint
manager. -/
def best (key : String) (d : Direction) : List Checkpoint → Option Checkpoint
  | [] => none
  | c :: cs =>
    match getMetric c key with
    | none => best key d cs
    | some v =>
      match best key d cs with
      | none => some c
      | some b =>
        match getMetric b key with
        | none => some c
        | some vb => if better d vb v then some b else some c

/-- No value strictly beats itself. -/
theorem better_self (d : Direction) (x : ℚ) : better d x x = false := by
  cases d <;> simp [better]

/-- Strict betterness is asymmetric. -/
theorem better_asymm (d : Direction) {x y : ℚ} (h : better d x y = true) :
    better d y x = false := by
  cases d <;> simp [better] at h ⊢ <;> exact le_of_lt h

/-- Not-strictly-better is transitive. -/
theorem better_false_trans (d : Direction) {x y z : ℚ}
    (h1 : better d x y = false) (h2 : better d y z = false) :
    better d x z = false := by
  cases d <;> simp [better] at h1 h2 ⊢
  · exact le_trans h2 h1
  · exact le_trans h1 h2

/-- Two values neither of which strictly beats the other are equal. -/
theorem better_false_antisymm (d : Direction) {x y : ℚ}
    (h1 : better d x y = false) (h2 : better d y x = false) : x = y := by
  cases d <;> simp [better] at h1 h2
  · exact le_antisymm h2 h1
  · exact le_antisymm h1 h2

/-- `best` on a non-empty list whose head has no value for the key is
`best` of the tail. -/
theorem best_cons_nokey {key : String} {d : Direction} {c : Checkpoint}
    {cs : List Checkpoint} (hc : getMetric c key = none) :
    best key d (c :: cs) = best key d cs := by
  simp only [best, hc]

/-- `best` on a non-empty list whose head carries the key and whose tail
has no best is the head. -/
theorem best_cons_key_tailnone {key : String} {d : Direction} {c : Checkpoint}
    {cs : List Checkpoint} {v : ℚ} (hc : getMetric c key = some v)
    (hb : best key d cs = none) :
    best key d (c :: cs) = some c := by
  simp only [best, hc, hb]

/-- `best` on a non-empty list whose head carries the key compares it
against the tail's best when that one carries the key too. -/
theorem best_cons_key_tailsome {key : String} {d : Direction} {c b : Checkpoint}
    {cs : List Checkpoint} {v vb : ℚ} (hc : getMetric c key = some v)
    (hb : best key d cs = some b) (hbv : getMetric b key = some vb) :
    best key d (c :: cs) = if better d vb v then some b else some c := by
  simp only [best, hc, hb, hbv]

/-- A checkpoint `best` returns carries the requested key. -/
theorem best_some_keyed (key : String) (d : Direction) :
    ∀ (l : List Checkpoint) (b : Checkpoint), best key d l = some b →
      ∃ vb, getMetric b key = some vb := by
  intro l
  induction l with
  | nil => intro b h; cases h
  | cons c cs ih =>
    intro b h
    cases hc : getMetric c key with
    | none =>
      rw [best_cons_nokey hc] at h
      exact ih b h
    | some v =>
      cases hb : best key d cs with
      | none =>
        rw [best_cons_key_tailnone hc hb] at h
        injection h with h
        exact ⟨v, h ▸ hc⟩
      | some b' =>
        obtain ⟨vb', hvb'⟩ := ih b' hb
        rw [best_cons_key_tailsome hc hb hvb'] at h
        by_cases hcmp : better d vb' v = true
        · rw [if_pos hcmp] at h
          injection h with h
          exact ⟨vb', h ▸ hvb'⟩
        · rw [if_neg hcmp] at h
          injection h with h
          exact ⟨v, h ▸ hc⟩

/-- `best` returns `none` exactly when no checkpoint carries the key. -/
theorem best_eq_none_iff (key : String) (d : Direction) :
    ∀ l : List Checkpoint,
      best key d l = none ↔ ∀ c ∈ l, getMetric c key = none := by
  intro l
  induction l with
  | nil => simp [best]
  | cons c cs ih =>
    cases hc : getMetric c key with
    | none =>
      rw [best_cons_nokey hc]
      simp only [List.mem_cons]
      constructor
      · intro h x hx
        rcases hx with rfl | hx
        · exact hc
        · exact (ih.mp h) x hx
      · intro h
        exact ih.mpr fun x hx => h x (Or.inr hx)
    | some v =>
      have hne : ¬ ∀ x ∈ c :: cs, getMetric x key = none := by
        intro h
        exact absurd (h c (List.mem_cons_self c cs)) (by simp [hc])
      cases hb : best key d cs with
      | none =>
        rw [best_cons_key_tailnone hc hb]
        simp only [iff_false_intro hne, iff_false]
        intro h; cases h
      | some b =>
        cases hbv : getMetric b key with
        | none =>
          obtain ⟨vb', hvb'⟩ := best_some_keyed key d cs b hb
          rw [hvb'] at hbv
          cases hbv
        | some vb =>
          rw [best_cons_key_tailsome hc hb hbv]
          simp only [iff_false_intro hne, iff_false]
          by_cases hcmp : better d vb v = true
          · rw [if_pos hcmp]; intro h; cases h
          · rw [if_neg hcmp]; intro h; cases h

/-- A checkpoint `best` returns belongs to the list, carries the key, and
no checkpoint of the list strictly beats its value. -/
theorem best_spec (key : String) (d : Direction) :
    ∀ (l : List Checkpoint) (b : Checkpoint), best key d l = some b →
      b ∈ l ∧ ∃ vb, getMetric b key = some vb ∧
        ∀ c ∈ l, ∀ v, getMetric c key = some v → better d v vb = false := by
  intro l
  induction l with
  | nil => intro b h; cases h
  | cons c cs ih =>
    intro b h
    cases hc : getMetric c key with
    | none =>
      rw [best_cons_nokey hc] at h
      obtain ⟨hmem, vb, hvb, hopt⟩ := ih b h
      refine ⟨List.mem_cons_of_mem c hmem, vb, hvb, ?_⟩
      intro x hx v hv
      rcases List.mem_cons.mp hx with rfl | hx
      · rw [hc] at hv; cases hv
      · exact hopt x hx v hv
    | some v =>
      cases hb : best key d cs with
      | none =>
        rw [best_cons_key_tailnone hc hb] at h
        injection h with h
        subst h
        refine ⟨List.mem_cons_self c cs, v, hc, ?_⟩
        intro x hx w hw
        rcases List.mem_cons.mp hx with rfl | hx
        · rw [hc] at hw
          injection hw with hw
          subst hw
          exact better_self d v
        · exact absurd hw (by simp [(best_eq_none_iff key d cs).mp hb x hx])
      | some b' =>
        obtain ⟨hmem', vb', hvb', hopt'⟩ := ih b' hb
        rw [best_cons_key_tailsome hc hb hvb'] at h
        by_cases hcmp : better d vb' v = true
        · rw [if_pos hcmp] at h
          injection h with h
          subst h
          refine ⟨List.mem_cons_of_mem c hmem', vb', hvb', ?_⟩
          intro x hx w hw
          rcases List.mem_cons.mp hx with rfl | hx
          · rw [hc] at hw
            injection hw with hw
            subst hw
            exact better_asymm d hcmp
          · exact hopt' x hx w hw
        · rw [if_neg hcmp] at h
          injection h with h
          subst h
          refine ⟨List.mem_cons_self c cs, v, hc, ?_⟩
          intro x hx w hw
          rcases List.mem_cons.mp hx with rfl | hx
          · rw [hc] at hw
            injection hw with hw
            subst hw
            exact better_self d v
          · have h1 : better d w vb' = false := hopt' x hx w hw
            have h2 : better d vb' v = false := Bool.not_eq_true _ |>.mp hcmp
            exact better_false_trans d h1 h2

/-- The demonstration checkpoints of the spec's `best` scenario, with
losses 0.9, 0.4 and 0.6. -/
def ckpt09 : Checkpoint := ⟨7, 10, "s10", [("loss", 9/10)], false⟩

/-- The checkpoint with loss 0.4, the optimum of the scenario. -/
def ckpt04 : Checkpoint := ⟨7, 20, "s20", [("loss", 2/5)], false⟩

/-- The checkpoint with loss 0.6. -/
def ckpt06 : Checkpoint := ⟨7, 30, "s30", [("loss", 3/5)], true⟩

/-- C5: a checkpoint returned by `best` is one of the run's checkpoints,
carries the requested key, and no checkpoint of the run strictly beats its
value for the requested direction; when the metric values under the key
identify checkpoints uniquely, the result is invariant under permutation of
registration order; and over the three scenario checkpoints with losses
0.9, 0.4 and 0.6, `best` with key loss and direction minimize returns the
0.4 checkpoint in every registration order. -/
theorem best_optimal_and_order_invariant :
    (∀ key d l b, best key d l = some b →
        b ∈ l ∧ ∃ vb, getMetric b key = some vb ∧
          ∀ c ∈ l, ∀ v, getMetric c key = some v → better d v vb = false)
    ∧ (∀ key d (l l' : List Checkpoint), l.Perm l' →
        (∀ c1 ∈ l, ∀ c2 ∈ l, (getMetric c1 key).isSome = true →
          getMetric c1 key = getMetric c2 key → c1 = c2) →
        best key d l = best key d l')
    ∧ (∀ l, l.Perm [ckpt09, ckpt04, ckpt06] →
        best "loss" .minimize l = some ckpt04) := by
  have hperm : ∀ key d (l l' : List Checkpoint), l.Perm l' →
      (∀ c1 ∈ l, ∀ c2 ∈ l, (getMetric c1 key).isSome = true →
        getMetric c1 key = getMetric c2 key → c1 = c2) →
      best key d l = best key d l' := by
    intro key d l l' hp hinj
    cases hl : best key d l with
    | none =>
      have hall := (best_eq_none_iff key d l).mp hl
      symm
      exact (best_eq_none_iff key d l').mpr fun c hc => hall c (hp.mem_iff.mpr hc)
    | some b =>
      cases hl' : best key d l' with
      | none =>
        have hall := (best_eq_none_iff key d l').mp hl'
        obtain ⟨hmem, vb, hvb, _⟩ := best_spec key d l b hl
        exact absurd hvb (by simp [hall b (hp.mem_iff.mp hmem)])
      | some b' =>
        obtain ⟨hmem, vb, hvb, hopt⟩ := best_spec key d l b hl
        obtain ⟨hmem', vb', hvb', hopt'⟩ := best_spec key d l' b' hl'
        have hb'l : b' ∈ l := hp.mem_iff.mpr hmem'
        have hbl' : b ∈ l' := hp.mem_iff.mp hmem
        have h1 : better d vb' vb = false := hopt b' hb'l vb' hvb'
        have h2 : better d vb vb' = false := hopt' b hbl' vb hvb
        have hvv : vb = vb' := better_false_antisymm d h2 h1
        have : b = b' := by
          refine hinj b hmem b' hb'l (by simp [hvb]) ?_
          rw [hvb, hvb', hvv]
        rw [this]
  refine ⟨best_spec, hperm, ?_⟩
  intro l hp
  have hinj : ∀ c1 ∈ l, ∀ c2 ∈ l, (getMetric c1 "loss").isSome = true →
      getMetric c1 "loss" = getMetric c2 "loss" → c1 = c2 := by
    intro c1 h1 c2 h2 hs he
    have h1' := hp.mem_iff.mp h1
    have h2' := hp.mem_iff.mp h2
    fin_cases h1' <;> fin_cases h2' <;>
      first
      | rfl
      | (simp only [getMetric, ckpt09, ckpt04, ckpt06, List.lookup] at he
         norm_num at he)
  rw [hperm "loss" .minimize l [ckpt09, ckpt04, ckpt06] hp hinj]
  have g09 : getMetric ckpt09 "loss" = some (9/10) := by
    simp [getMetric, ckpt09, List.lookup]
  have g04 : getMetric ckpt04 "loss" = some (2/5) := by
    simp [getMetric, ckpt04, List.lookup]
  have g06 : getMetric ckpt06 "loss" = some (3/5) := by
    simp [getMetric, ckpt06, List.lookup]
  have e1 : best "loss" .minimize [ckpt06] = some ckpt06 :=
    best_cons_key_tailnone g06 rfl
  have e2 : best "loss" .minimize [ckpt04, ckpt06] = some ckpt04 := by
    rw [best_cons_key_tailsome g04 e1 g06]
    have hb1 : ¬ (better .minimize ((3 : ℚ)/5) (2/5) = true) := by
      norm_num [better]
    rw [if_neg hb1]
  have e3 : best "loss" .minimize [ckpt09, ckpt04, ckpt06] = some ckpt04 := by
    rw [best_cons_key_tailsome g09 e2 g04]
    have hb2 : better .minimize ((2 : ℚ)/5) (9/10) = true := by
      norm_num [better]
    rw [if_pos hb2]
  exact e3

/-- Witness for C5: the scenario in one shuffled registration order. -/
theorem best_order_invariant_witness :
    best "loss" .minimize [ckpt04, ckpt09, ckpt06] = some ckpt04 :=
  best_optimal_and_order_invariant.2.2 [ckpt04, ckpt09, ckpt06]
    (List.Perm.swap ckpt09 ckpt04 [ckpt06])

end TinkerUI
